import Mathlib

/-!
Verification of the toolbelt in tools.py of the codegen-demo repository:
the four operations read_file, list_files, bash and edit_file, shallowly
embedded over an explicit filesystem state.

Modelling conventions:
- A filesystem is a finite collection of text files and directories,
  each addressed by a list of path components.  The current working
  directory is the empty component list, which always exists.
- Python exceptions are modelled by the PyExn type; an operation that can
  let a Python exception escape returns Except PyExn String, where the
  error case is an uncaught exception and the ok case is the returned
  result string.
- subprocess.run is modelled by an oracle RunOutcome argument describing
  what the spawned subprocess did (exit status, captured stdout and
  stderr) or which non-CalledProcessError exception the invocation raised
  (for example ValueError for a NUL byte embedded in the command, or
  UnicodeDecodeError when text mode cannot decode the captured output).
- Path objects compare by their underlying path string (CPython 3.12+;
  CPython up to 3.11 compared by the component tuple, which orders the
  same except when a component contains a character that sorts before
  the separator).
- json.dumps escaping of control characters is elided; quote and
  backslash escaping is kept, which is exact for every string free of
  control characters.
-/

namespace Codegen

/-- Python str.isspace for the ASCII whitespace characters relevant here. -/
def isPySpace (c : Char) : Bool :=
  c = ' ' || c = '\t' || c = '\n' || c = '\r' || c = Char.ofNat 11 || c = Char.ofNat 12

/-- Python str.strip with no argument: drop leading and trailing whitespace. -/
def pyStripL (l : List Char) : List Char :=
  ((l.dropWhile isPySpace).reverse.dropWhile isPySpace).reverse

def pyStrip (s : String) : String :=
  String.mk (pyStripL s.data)

/-- Modelled from the spec: return standard output with only TRAILING
whitespace trimmed (section 4.3 of the spec); used to compare the spec
wording against what the code (str.strip) actually does. -/
def stdoutTrailingTrimmed (s : String) : String :=
  String.mk ((s.data.reverse.dropWhile isPySpace).reverse)

/-- Boolean list-prefix test (mirrors startswith checks on sequences). -/
def isPre {α : Type} [DecidableEq α] : List α → List α → Bool
  | [], _ => true
  | _ :: _, [] => false
  | a :: as, b :: bs => a = b && isPre as bs

/-- Python str.count for a nonempty pattern p :: ps: straightforward
left-to-right non-overlapping count.  The Nat argument is recursion fuel,
always instantiated with the length of the scanned list. -/
def countTok (p : Char) (ps : List Char) : Nat → List Char → Nat
  | _, [] => 0
  | 0, _ :: _ => 0
  | fuel + 1, c :: s =>
    if isPre (p :: ps) (c :: s) then countTok p ps fuel (s.drop ps.length) + 1
    else countTok p ps fuel s

/-- Python str.replace(old, new, 1) for a nonempty pattern p :: ps:
replace the leftmost occurrence, with recursion fuel as in countTok. -/
def replTok (p : Char) (ps r : List Char) : Nat → List Char → List Char
  | _, [] => []
  | 0, l => l
  | fuel + 1, c :: s =>
    if isPre (p :: ps) (c :: s) then r ++ s.drop ps.length
    else c :: replTok p ps r fuel s

def countL (p : Char) (ps : List Char) (s : List Char) : Nat :=
  countTok p ps s.length s

def replL (p : Char) (ps r : List Char) (s : List Char) : List Char :=
  replTok p ps r s.length s

/-- Python str.count.  For the empty pattern Python returns length + 1;
edit_file never reaches count with an empty pattern. -/
def pyCount (pat s : String) : Nat :=
  match pat.data with
  | [] => s.data.length + 1
  | p :: ps => countL p ps s.data

/-- Python str.replace(pat, rep, 1). -/
def pyReplaceFirst (pat rep s : String) : String :=
  match pat.data with
  | [] => String.mk (rep.data ++ s.data)
  | p :: ps => String.mk (replL p ps rep.data s.data)

/-- Split a character list at the separator, accumulator-style. -/
def splitSlashAux (cur : List Char) : List Char → List (List Char)
  | [] => [cur.reverse]
  | c :: rest =>
    if c = '/' then cur.reverse :: splitSlashAux [] rest
    else splitSlashAux (c :: cur) rest

/-- pathlib path parsing: split on the separator and drop empty and dot
components (PurePath normalisation).  The root marker of absolute paths
is dropped, which affects neither membership nor relative order. -/
def parsePath (s : String) : List String :=
  ((splitSlashAux [] s.data).map fun l => String.mk l).filter
    fun comp => decide (comp ≠ "" ∧ comp ≠ ".")

/-- str of a pathlib path with the given components. -/
def joinPath : List String → String
  | [] => ""
  | [c] => c
  | c :: d :: rest => c ++ "/" ++ joinPath (d :: rest)

/-- A path component is hidden when it starts with a dot. -/
def hiddenComp (comp : String) : Bool :=
  decide (comp.data.head? = some '.')

def anyHidden (p : List String) : Bool :=
  p.any hiddenComp

def validComp (c : String) : Prop := c ≠ "" ∧ '/' ∉ c.data

def validPath (p : List String) : Prop := p ≠ [] ∧ ∀ c ∈ p, validComp c

/-- The filesystem state: text files and directories by component list. -/
structure FS where
  files : List (List String × String)
  dirs : List (List String)
deriving DecidableEq

/-- Python exceptions that the modelled primitives can raise. -/
inductive PyExn
  | fileNotFound (path : String)
  | isADirectory (path : String)
  | fileExists (path : String)
  | calledProcessError (exitCode : Int) (stderr : String)
  | valueError (msg : String)
  | unicodeDecodeError (msg : String)
deriving DecidableEq

/-- The single-quote character, used by CPython exception renderings. -/
def sq : String := String.singleton (Char.ofNat 39)

/-- str(e) for the modelled exceptions, as CPython renders them. -/
def PyExn.str : PyExn → String
  | .fileNotFound p => "[Errno 2] No such file or directory: " ++ sq ++ p ++ sq
  | .isADirectory p => "[Errno 21] Is a directory: " ++ sq ++ p ++ sq
  | .fileExists p => "[Errno 17] File exists: " ++ sq ++ p ++ sq
  | .calledProcessError c e => "Command returned non-zero exit status " ++ toString c ++ ": " ++ e
  | .valueError m => m
  | .unicodeDecodeError m => m

def FS.contentAt (fs : FS) (p : List String) : Option String :=
  (fs.files.find? fun e => decide (e.1 = p)).map Prod.snd

def FS.isFileAt (fs : FS) (p : List String) : Prop :=
  (fs.contentAt p).isSome

def FS.isDirAt (fs : FS) (p : List String) : Prop :=
  p = [] ∨ p ∈ fs.dirs

/-- Path.exists(). -/
def FS.existsAt (fs : FS) (p : List String) : Prop :=
  fs.isFileAt p ∨ fs.isDirAt p

instance (fs : FS) (p : List String) : Decidable (fs.isFileAt p) := by
  unfold FS.isFileAt; infer_instance

instance (fs : FS) (p : List String) : Decidable (fs.isDirAt p) := by
  unfold FS.isDirAt; infer_instance

instance (fs : FS) (p : List String) : Decidable (fs.existsAt p) := by
  unfold FS.existsAt; infer_instance

/-- Path.read_text(). -/
def FS.readText (fs : FS) (p : List String) : Except PyExn String :=
  match fs.contentAt p with
  | some c => .ok c
  | none =>
    if fs.isDirAt p then .error (.isADirectory (joinPath p))
    else .error (.fileNotFound (joinPath p))

/-- Truncating whole-file write: replace the first binding or append one. -/
def setFile : List (List String × String) → List String → String → List (List String × String)
  | [], p, c => [(p, c)]
  | e :: rest, p, c =>
    if e.1 = p then (p, c) :: rest else e :: setFile rest p c

/-- Path.write_text(). -/
def FS.writeText (fs : FS) (p : List String) (c : String) : Except PyExn FS :=
  if fs.isDirAt p then .error (.isADirectory (joinPath p))
  else .ok { fs with files := setFile fs.files p c }

def addDir (fs : FS) (d : List String) : FS :=
  { fs with dirs := fs.dirs ++ [d] }

/-- The chain of ancestors that Path.parent.mkdir(parents=True) visits:
all nonempty prefixes of the parent of p, shortest first. -/
def parentChain (p : List String) : List (List String) :=
  (List.range p.dropLast.length).map fun i => p.dropLast.take (i + 1)

/-- mkdir(parents=True, exist_ok=True) along a chain of ancestors,
top-down; hitting an existing file raises, existing directories are
accepted, missing ones are created.  The returned state keeps whatever
was created before a failure. -/
def mkdirChain (fs : FS) : List (List String) → FS × Option PyExn
  | [] => (fs, none)
  | d :: rest =>
    if fs.isFileAt d then (fs, some (.fileExists (joinPath d)))
    else if d ∈ fs.dirs then mkdirChain fs rest
    else mkdirChain (addDir fs d) rest

/-- Well-formedness of a filesystem state: component lists are nonempty
and separator-free, no path is both a file and a directory, and every
proper ancestor of an existing entry is an existing directory. -/
def FS.WF (fs : FS) : Prop :=
  (∀ e ∈ fs.files, validPath e.1) ∧
  (∀ d ∈ fs.dirs, validPath d) ∧
  (∀ e ∈ fs.files, e.1 ∉ fs.dirs) ∧
  (∀ e ∈ fs.files, ∀ k, k < e.1.length → 0 < k → e.1.take k ∈ fs.dirs) ∧
  (∀ d ∈ fs.dirs, ∀ k, k < d.length → 0 < k → d.take k ∈ fs.dirs)

/-! ## The four tool operations -/

/-- read_file from tools.py. -/
def read_file (fs : FS) (path : String) : Except PyExn String :=
  match fs.readText (parsePath path) with
  | .ok content => .ok content
  | .error (.fileNotFound _) => .ok ("Error: File not found at " ++ sq ++ path ++ sq)
  | .error e => .ok ("Error: Failed to read file " ++ sq ++ path ++ sq ++ ": " ++ e.str)

def jsonEscapeChar (c : Char) : String :=
  if c = '"' then "\\\"" else if c = '\\' then "\\\\" else String.singleton c

def jsonStr (s : String) : String :=
  "\"" ++ String.join (s.data.map jsonEscapeChar) ++ "\""

def jsonDumps (l : List String) : String :=
  "[" ++ String.intercalate ", " (l.map jsonStr) ++ "]"

/-- Entries of the filesystem as (components, is-directory) pairs. -/
def FS.entriesOf (fs : FS) : List (List String × Bool) :=
  (fs.files.map fun e => (e.1, false)) ++ (fs.dirs.map fun d => (d, true))

/-- base.rglob("*"): every entry strictly below the base directory. -/
def rglob (fs : FS) (b : List String) : List (List String × Bool) :=
  fs.entriesOf.filter fun e => isPre b e.1 && !decide (e.1 = b)

/-- Computable lexicographic comparison of character lists by code
point, mirroring Python string comparison. -/
def charLL : List Char → List Char → Bool
  | [], _ => true
  | _ :: _, [] => false
  | a :: as, b :: bs =>
    if a.toNat < b.toNat then true
    else if b.toNat < a.toNat then false
    else charLL as bs

def strLE (s t : String) : Bool := charLL s.data t.data

/-- sorted(...) on Path objects: by the underlying path string. -/
def sortedEntries (fs : FS) (b : List String) : List (List String × Bool) :=
  (rglob fs b).insertionSort fun e₁ e₂ => strLE (joinPath e₁.1) (joinPath e₂.1) = true

/-- The entries surviving the hidden-component filter, in output order. -/
def listedEntries (fs : FS) (b : List String) : List (List String × Bool) :=
  (sortedEntries fs b).filter fun e => !anyHidden e.1

/-- str(p.relative_to(base)) plus the trailing separator for directories. -/
def fmtEntry (b : List String) (e : List String × Bool) : String :=
  joinPath (e.1.drop b.length) ++ (if e.2 then "/" else "")

/-- The files list built by list_files, before serialisation. -/
def listFilesCore (fs : FS) (b : List String) : List String :=
  (listedEntries fs b).map (fmtEntry b)

/-- list_files from tools.py. -/
def list_files (fs : FS) (path : String) : Except PyExn String :=
  .ok (jsonDumps (listFilesCore fs (parsePath path)))

/-- What the spawned subprocess did: either it ran to completion with an
exit status and captured output, or the invocation itself raised an
exception other than CalledProcessError (ValueError for an embedded NUL
byte in the command, UnicodeDecodeError for undecodable output in text
mode). -/
inductive RunOutcome
  | completed (exitCode : Int) (stdout stderr : String)
  | raised (e : PyExn)
deriving DecidableEq

/-- subprocess.run(command, shell=True, check=True, capture_output=True,
text=True): with check=True a nonzero exit status raises
CalledProcessError; other invocation failures raise their own exception. -/
def subprocessRun (o : RunOutcome) : Except PyExn (String × String) :=
  match o with
  | .completed code out err =>
    if code = 0 then .ok (out, err) else .error (.calledProcessError code err)
  | .raised e => .error e

/-- bash from tools.py: only CalledProcessError is caught. -/
def bash (_command : String) (o : RunOutcome) : Except PyExn String :=
  match subprocessRun o with
  | .ok (out, _) => .ok (pyStrip out)
  | .error (.calledProcessError code err) =>
    .ok ("Command failed with exit code " ++ toString code ++ ":\n" ++ err)
  | .error e => .error e

def invalidParamsMsg : String :=
  "Error: Invalid input parameters. Path cannot be empty and old_str must differ from new_str."

def unexpectedMsg (e : PyExn) : String :=
  "Error: An unexpected error occurred: " ++ e.str

/-- edit_file from tools.py, threading the filesystem state. -/
def edit_file (fs : FS) (path old_str new_str : String) : Except PyExn String × FS :=
  if path = "" ∨ old_str = new_str then
    (.ok invalidParamsMsg, fs)
  else
    let p := parsePath path
    match mkdirChain fs (parentChain p) with
    | (fs1, some e) => (.ok (unexpectedMsg e), fs1)
    | (fs1, none) =>
      if ¬ fs1.existsAt p ∧ old_str = "" then
        match fs1.writeText p new_str with
        | .ok fs2 => (.ok ("Successfully created and wrote to new file " ++ path), fs2)
        | .error e => (.ok (unexpectedMsg e), fs1)
      else
        match fs1.readText p with
        | .error e => (.ok (unexpectedMsg e), fs1)
        | .ok old_content =>
          if old_str = "" then
            match fs1.writeText p (old_content ++ new_str) with
            | .ok fs2 => (.ok "OK", fs2)
            | .error e => (.ok (unexpectedMsg e), fs1)
          else
            let count := pyCount old_str old_content
            if count = 0 then
              (.ok "Error: old_str not found in file.", fs1)
            else if 1 < count then
              (.ok ("Error: old_str found " ++ toString count ++
                " times, must be unique for safety."), fs1)
            else
              match fs1.writeText p (pyReplaceFirst old_str new_str old_content) with
              | .ok fs2 => (.ok "OK", fs2)
              | .error e => (.ok (unexpectedMsg e), fs1)

instance (c : String) : Decidable (validComp c) := by
  unfold validComp; infer_instance

instance (p : List String) : Decidable (validPath p) := by
  unfold validPath; infer_instance

instance (fs : FS) : Decidable fs.WF := by
  unfold FS.WF; infer_instance

/-! ## Supporting lemmas -/

theorem isPre_iff {α : Type} [DecidableEq α] :
    ∀ l₁ l₂ : List α, isPre l₁ l₂ = true ↔ l₁ <+: l₂
  | [], l₂ => by simp [isPre]
  | a :: as, [] => by simp [isPre]
  | a :: as, b :: bs => by
    simp [isPre, isPre_iff as bs, List.cons_prefix_cons, and_comm]

theorem head?_dropWhile_not (p : α → Bool) :
    ∀ l : List α, ∀ c, (l.dropWhile p).head? = some c → p c = false := by
  intro l
  induction l with
  | nil => intro c h; simp [List.dropWhile] at h
  | cons a t ih =>
    intro c h
    rw [List.dropWhile_cons] at h
    by_cases ha : p a = true
    · rw [if_pos ha] at h; exact ih c h
    · rw [if_neg ha] at h
      simp only [List.head?_cons, Option.some.injEq] at h
      subst h
      exact Bool.not_eq_true _ ▸ (by simpa using ha)

theorem mem_takeWhile_space (p : α → Bool) (l : List α) (c : α)
    (h : c ∈ l.takeWhile p) : p c = true :=
  List.mem_takeWhile_imp h

/-- Characterisation of Python str.strip: the result is the input with a
run of whitespace removed from each end, and itself neither begins nor
ends with whitespace. -/
theorem pyStrip_spec (s : String) :
    ∃ pre suf, s.data = pre ++ (pyStrip s).data ++ suf ∧
      (∀ c ∈ pre, isPySpace c = true) ∧ (∀ c ∈ suf, isPySpace c = true) ∧
      (∀ c, (pyStrip s).data.head? = some c → isPySpace c = false) ∧
      (∀ c, (pyStrip s).data.getLast? = some c → isPySpace c = false) := by
  have hdata : (pyStrip s).data = pyStripL s.data := rfl
  set l := s.data with hl
  set a := l.dropWhile isPySpace with ha
  set res := (a.reverse.dropWhile isPySpace).reverse with hres
  have hres' : pyStripL l = res := rfl
  refine ⟨l.takeWhile isPySpace, (a.reverse.takeWhile isPySpace).reverse, ?_, ?_, ?_, ?_, ?_⟩
  · rw [hdata, hres']
    have h1 : l = l.takeWhile isPySpace ++ a := (List.takeWhile_append_dropWhile ..).symm
    have h2 : a = res ++ (a.reverse.takeWhile isPySpace).reverse := by
      conv_lhs => rw [← List.reverse_reverse a]
      conv_lhs => rw [← List.takeWhile_append_dropWhile (p := isPySpace) (l := a.reverse)]
      rw [List.reverse_append]
    rw [List.append_assoc, ← h2, ← h1]
  · intro c hc; exact mem_takeWhile_space _ _ _ hc
  · intro c hc
    rw [List.mem_reverse] at hc
    exact mem_takeWhile_space _ _ _ hc
  · intro c hc
    rw [hdata, hres'] at hc
    have h2 : a = res ++ (a.reverse.takeWhile isPySpace).reverse := by
      conv_lhs => rw [← List.reverse_reverse a]
      conv_lhs => rw [← List.takeWhile_append_dropWhile (p := isPySpace) (l := a.reverse)]
      rw [List.reverse_append]
    have hne : res ≠ [] := by
      intro h0; rw [h0] at hc; simp at hc
    have : a.head? = some c := by
      rw [h2, List.head?_append_of_ne_nil _ hne]; exact hc
    exact head?_dropWhile_not isPySpace l c this
  · intro c hc
    rw [hdata, hres'] at hc
    rw [hres, List.getLast?_reverse] at hc
    exact head?_dropWhile_not isPySpace a.reverse c hc

/-! ## Claim theorems: C6, C2, C7, C3 -/

/-- C6: a call to edit_file with an empty path or with old_str equal to
new_str returns the invalid-input error, and the filesystem state is
returned untouched whatever it was: the precondition check precedes any
filesystem access. -/
theorem C6_noop_rejection (fs : FS) (path old new : String)
    (h : path = "" ∨ old = new) :
    edit_file fs path old new = (.ok invalidParamsMsg, fs) := by
  unfold edit_file
  rw [if_pos h]

theorem C6_witness :
    edit_file ⟨[], []⟩ "f.txt" "x" "x" = (.ok invalidParamsMsg, ⟨[], []⟩) :=
  C6_noop_rejection ⟨[], []⟩ "f.txt" "x" "x" (Or.inr rfl)

/-- C2: the claim states the recovery-at-boundary policy of the spec,
and the code falls short of it in bash alone: only CalledProcessError is
caught, so an exception raised by the subprocess invocation itself
— here the ValueError that CPython raises for a command string
containing an embedded NUL byte — propagates out of the operation
unhandled and terminates the caller.  The first conjunct evaluates the
model at that failing input (the result is an escaped exception, not a
text result); the second shows the contrast at the same command when the
subprocess merely exits nonzero, which the except clause does recover. -/
theorem C2_bash_uncaught :
    bash "a\u0000b" (.raised (.valueError "embedded null byte")) =
      .error (.valueError "embedded null byte") ∧
    bash "a\u0000b" (.completed 1 "" "err") =
      .ok "Command failed with exit code 1:\nerr" := ⟨rfl, rfl⟩

/-- The handler coverage of the four operations: read_file, list_files
and edit_file return a single text result for every input, all modelled
exceptions being caught by their blanket handlers; bash returns a text
result whenever the subprocess invocation completes with an exit status
(zero or nonzero). -/
theorem handlers_total :
    (∀ (fs : FS) (path : String), ∃ s, read_file fs path = .ok s) ∧
    (∀ (fs : FS) (path : String), ∃ s, list_files fs path = .ok s) ∧
    (∀ (fs : FS) (path old new : String), ∃ s fs',
      edit_file fs path old new = (.ok s, fs')) ∧
    (∀ (cmd : String) (code : Int) (out err : String), ∃ s,
      bash cmd (.completed code out err) = .ok s) := by
  refine ⟨fun fs path => ?_, fun fs path => ⟨_, rfl⟩, fun fs path old new => ?_,
    fun cmd code out err => ?_⟩
  · cases hr : fs.readText (parsePath path) with
    | ok c => exact ⟨c, by unfold read_file; rw [hr]⟩
    | error e => cases e <;> exact ⟨_, by unfold read_file; rw [hr]⟩
  · unfold edit_file
    dsimp only
    repeat' first
    | exact ⟨_, _, rfl⟩
    | split
  · by_cases hc : code = 0
    · subst hc; exact ⟨_, rfl⟩
    · exact ⟨"Command failed with exit code " ++ toString code ++ ":\n" ++ err,
        by simp [bash, subprocessRun, hc]⟩

/-- C7 counterexample: on success the code returns stdout passed through
str.strip, which removes LEADING whitespace as well; for stdout with a
leading space the result differs from the claimed
trailing-whitespace-only trim. -/
theorem C7_counterexample :
    bash "c" (.completed 0 " hi\n" "") = .ok "hi" ∧
    stdoutTrailingTrimmed " hi\n" = " hi" ∧ ("hi" : String) ≠ " hi" :=
  ⟨rfl, rfl, by decide⟩

/-- C7 (amended): for exit status zero, bash returns the captured stdout
with leading AND trailing whitespace trimmed (str.strip), stderr being
discarded; for nonzero status n it returns the recovered string
consisting of the failure banner with exit code n, a newline, and the
full captured stderr. -/
theorem C7_exit_mapping (cmd : String) (code : Int) (out err : String) :
    (code = 0 → bash cmd (.completed code out err) = .ok (pyStrip out) ∧
      ∃ pre suf, out.data = pre ++ (pyStrip out).data ++ suf ∧
        (∀ c ∈ pre, isPySpace c = true) ∧ (∀ c ∈ suf, isPySpace c = true) ∧
        (∀ c, (pyStrip out).data.head? = some c → isPySpace c = false) ∧
        (∀ c, (pyStrip out).data.getLast? = some c → isPySpace c = false)) ∧
    (code ≠ 0 → bash cmd (.completed code out err) =
      .ok ("Command failed with exit code " ++ toString code ++ ":\n" ++ err)) := by
  constructor
  · intro h
    subst h
    exact ⟨rfl, pyStrip_spec out⟩
  · intro h
    simp [bash, subprocessRun, h]

theorem C7_witness :
    bash "exit3" (.completed 3 "" "boom") =
      .ok "Command failed with exit code 3:\nboom" :=
  ((C7_exit_mapping "exit3" 3 "" "boom").2 (by decide)).trans (by rfl)

theorem rglob_eq_nil (fs : FS) (b : List String) (hwf : fs.WF)
    (hb : b ≠ []) (hnd : b ∉ fs.dirs) : rglob fs b = [] := by
  unfold rglob
  rw [List.filter_eq_nil_iff]
  rintro ⟨q, flag⟩ hmem hpred
  rw [Bool.and_eq_true, Bool.not_eq_true', decide_eq_false_iff_not] at hpred
  obtain ⟨hpre, hne⟩ := hpred
  rcases (isPre_iff b q).mp hpre with ⟨t, ht⟩
  have ht' : t ≠ [] := by
    rintro rfl
    exact hne (by simpa using ht.symm)
  have hlen : b.length < q.length := by
    rw [← ht, List.length_append]
    have : 0 < t.length := List.length_pos.mpr ht'
    omega
  have htake : q.take b.length = b := by
    rw [← ht, List.take_left]
  have hbpos : 0 < b.length := List.length_pos.mpr hb
  unfold FS.entriesOf at hmem
  rcases List.mem_append.mp hmem with hf | hd
  · rcases List.mem_map.mp hf with ⟨e, he, heq⟩
    have hq1 : e.1 = q := congrArg Prod.fst heq
    have := hwf.2.2.2.1 e he b.length (hq1 ▸ hlen) hbpos
    rw [hq1, htake] at this
    exact hnd this
  · rcases List.mem_map.mp hd with ⟨d, hd', heq⟩
    have hq1 : d = q := congrArg Prod.fst heq
    have := hwf.2.2.2.2 d hd' b.length (hq1 ▸ hlen) hbpos
    rw [hq1, htake] at this
    exact hnd this

/-- C3 counterexample: for a base path that does not exist, list_files
returns the successful empty listing rather than an error result. -/
theorem C3_counterexample :
    list_files ⟨[(["a.txt"], "x")], []⟩ "nope" = .ok "[]" := rfl

/-- C3 (amended): for every base path that does not exist or is not a
directory, list_files returns the successful empty listing (the
serialised empty list), not an error: rglob over a missing or non-directory
base yields nothing and no exception. -/
theorem C3_missing_base_empty (fs : FS) (path : String) (hwf : fs.WF)
    (hb : parsePath path ≠ []) (hnd : parsePath path ∉ fs.dirs) :
    list_files fs path = .ok "[]" := by
  unfold list_files
  rw [show listFilesCore fs (parsePath path) = [] from ?_]
  · rfl
  · unfold listFilesCore listedEntries sortedEntries
    rw [rglob_eq_nil fs _ hwf hb hnd]
    rfl

theorem C3_witness :
    list_files ⟨[(["d", "a.txt"], "x")], [["d"]]⟩ "d/a.txt" = .ok "[]" :=
  C3_missing_base_empty ⟨[(["d", "a.txt"], "x")], [["d"]]⟩ "d/a.txt"
    (by decide) (by decide) (by decide)

/-! ## Filesystem lemmas for the edit_file claims -/

theorem contentAt_congr_files (fs fs' : FS) (h : fs'.files = fs.files) (p : List String) :
    fs'.contentAt p = fs.contentAt p := by
  unfold FS.contentAt
  rw [h]

theorem not_isFileAt_of_mem_dirs (fs : FS) (hwf : fs.WF) (d : List String)
    (hd : d ∈ fs.dirs) : ¬ fs.isFileAt d := by
  intro h
  unfold FS.isFileAt FS.contentAt at h
  rcases Option.isSome_iff_exists.mp h with ⟨c, hc⟩
  rcases Option.map_eq_some'.mp hc with ⟨e, he, -⟩
  have hmem := List.mem_of_find?_eq_some he
  have heq : e.1 = d := by simpa using List.find?_some he
  exact hwf.2.2.1 e hmem (heq ▸ hd)

theorem contentAt_mem (fs : FS) (p : List String) (C : String)
    (h : fs.contentAt p = some C) : ∃ e ∈ fs.files, e.1 = p ∧ e.2 = C := by
  unfold FS.contentAt at h
  rcases Option.map_eq_some'.mp h with ⟨e, he, hsnd⟩
  exact ⟨e, List.mem_of_find?_eq_some he, by simpa using List.find?_some he, hsnd⟩

theorem validPath_of_contentAt (fs : FS) (hwf : fs.WF) (p : List String) (C : String)
    (h : fs.contentAt p = some C) : validPath p := by
  rcases contentAt_mem fs p C h with ⟨e, he, h1, -⟩
  exact h1 ▸ hwf.1 e he

theorem not_isDirAt_of_contentAt (fs : FS) (hwf : fs.WF) (p : List String) (C : String)
    (h : fs.contentAt p = some C) : ¬ fs.isDirAt p := by
  rcases contentAt_mem fs p C h with ⟨e, he, h1, -⟩
  rintro (h0 | hd)
  · exact (hwf.1 e he).1 (by rw [h1, h0])
  · exact hwf.2.2.1 e he (h1 ▸ hd)

theorem parentChain_mem (p d : List String) (hd : d ∈ parentChain p) :
    ∃ i, i + 1 < p.length ∧ d = p.take (i + 1) := by
  unfold parentChain at hd
  rcases List.mem_map.mp hd with ⟨i, hi, heq⟩
  rw [List.mem_range, List.length_dropLast] at hi
  refine ⟨i, by omega, ?_⟩
  rw [← heq, List.dropLast_eq_take, List.take_take]
  congr 1
  omega

theorem parentChain_mem_dirs (fs : FS) (hwf : fs.WF) (p : List String) (C : String)
    (hC : fs.contentAt p = some C) : ∀ d ∈ parentChain p, d ∈ fs.dirs := by
  intro d hd
  rcases parentChain_mem p d hd with ⟨i, hi, rfl⟩
  rcases contentAt_mem fs p C hC with ⟨e, he, h1, -⟩
  subst h1
  exact hwf.2.2.2.1 e he (i + 1) hi (by omega)

theorem not_mem_parentChain_self (p : List String) : p ∉ parentChain p := by
  intro h
  rcases parentChain_mem p p h with ⟨i, hi, heq⟩
  have : p.length = i + 1 := by
    conv_lhs => rw [heq]
    rw [List.length_take]
    omega
  omega

theorem mkdirChain_noop (fs : FS) (hwf : fs.WF) :
    ∀ chain, (∀ d ∈ chain, d ∈ fs.dirs) → mkdirChain fs chain = (fs, none) := by
  intro chain
  induction chain with
  | nil => intro; rfl
  | cons d rest ih =>
    intro h
    unfold mkdirChain
    rw [if_neg (not_isFileAt_of_mem_dirs fs hwf d (h d (List.mem_cons_self ..))),
      if_pos (h d (List.mem_cons_self ..))]
    exact ih fun x hx => h x (List.mem_cons_of_mem _ hx)

theorem mkdirChain_creates (chain : List (List String)) :
    ∀ fs : FS, (∀ d ∈ chain, ¬ fs.isFileAt d) →
    ∃ fs', mkdirChain fs chain = (fs', none) ∧ fs'.files = fs.files ∧
      (∀ x, x ∈ fs'.dirs ↔ x ∈ fs.dirs ∨ x ∈ chain) := by
  induction chain with
  | nil => intro fs _; exact ⟨fs, rfl, rfl, by simp⟩
  | cons d rest ih =>
    intro fs h
    unfold mkdirChain
    rw [if_neg (h d (List.mem_cons_self ..))]
    by_cases hd : d ∈ fs.dirs
    · rw [if_pos hd]
      obtain ⟨fs', h1, h2, h3⟩ := ih fs fun x hx => h x (List.mem_cons_of_mem _ hx)
      refine ⟨fs', h1, h2, fun x => ?_⟩
      rw [h3, List.mem_cons]
      constructor
      · rintro (hx | hx)
        · exact Or.inl hx
        · exact Or.inr (Or.inr hx)
      · rintro (hx | rfl | hx)
        · exact Or.inl hx
        · exact Or.inl hd
        · exact Or.inr hx
    · rw [if_neg hd]
      obtain ⟨fs', h1, h2, h3⟩ := ih (addDir fs d) fun x hx => h x (List.mem_cons_of_mem _ hx)
      refine ⟨fs', h1, h2, fun x => ?_⟩
      rw [h3]
      unfold addDir
      simp only [List.mem_append, List.mem_cons, List.mem_singleton,
        List.not_mem_nil, or_false]
      tauto

theorem find?_setFile_self (files : List (List String × String)) (p : List String)
    (c : String) :
    ((setFile files p c).find? fun e => decide (e.1 = p)) = some (p, c) := by
  induction files with
  | nil => simp [setFile, List.find?]
  | cons e rest ih =>
    unfold setFile
    by_cases he : e.1 = p
    · rw [if_pos he]
      simp [List.find?]
    · rw [if_neg he, List.find?_cons_of_neg _ (by simpa using he)]
      exact ih

theorem find?_setFile_other (files : List (List String × String)) (p q : List String)
    (c : String) (hq : q ≠ p) :
    ((setFile files p c).find? fun e => decide (e.1 = q)) =
      (files.find? fun e => decide (e.1 = q)) := by
  induction files with
  | nil => simp [setFile, List.find?, Ne.symm hq]
  | cons e rest ih =>
    unfold setFile
    by_cases he : e.1 = p
    · rw [if_pos he, List.find?_cons_of_neg _ (by simp [Ne.symm hq]),
        List.find?_cons_of_neg _ (by simp [he, Ne.symm hq])]
    · rw [if_neg he]
      by_cases heq : e.1 = q
      · rw [List.find?_cons_of_pos _ (by simpa using heq),
          List.find?_cons_of_pos _ (by simpa using heq)]
      · rw [List.find?_cons_of_neg _ (by simpa using heq),
          List.find?_cons_of_neg _ (by simpa using heq)]
        exact ih

theorem writeText_ok (fs : FS) (p : List String) (c : String) (hnd : ¬ fs.isDirAt p) :
    fs.writeText p c = .ok ⟨setFile fs.files p c, fs.dirs⟩ := by
  unfold FS.writeText
  rw [if_neg hnd]

theorem contentAt_write_self (fs : FS) (p : List String) (c : String) :
    (FS.mk (setFile fs.files p c) fs.dirs).contentAt p = some c := by
  unfold FS.contentAt
  rw [show (FS.mk (setFile fs.files p c) fs.dirs).files = setFile fs.files p c from rfl,
    find?_setFile_self]
  rfl

theorem contentAt_write_other (fs : FS) (p q : List String) (c : String) (hq : q ≠ p) :
    (FS.mk (setFile fs.files p c) fs.dirs).contentAt q = fs.contentAt q := by
  unfold FS.contentAt
  rw [show (FS.mk (setFile fs.files p c) fs.dirs).files = setFile fs.files p c from rfl,
    find?_setFile_other fs.files p q c hq]

theorem readText_of_contentAt (fs : FS) (p : List String) (C : String)
    (h : fs.contentAt p = some C) : fs.readText p = .ok C := by
  unfold FS.readText
  rw [h]

theorem not_existsAt_parts (fs : FS) (p : List String) (h : ¬ fs.existsAt p) :
    fs.contentAt p = none ∧ p ≠ [] ∧ p ∉ fs.dirs := by
  unfold FS.existsAt FS.isFileAt FS.isDirAt at h
  push_neg at h
  exact ⟨Option.not_isSome_iff_eq_none.mp h.1, h.2.1, h.2.2⟩

/-- C5: with empty old_str, edit_file creates the file (with any missing
parent directories) holding exactly new_str when it did not exist, and
appends new_str to existing content otherwise; the concrete conjunct
replays the create, append, replace scenario yielding HI world. -/
theorem C5_create_append (fs : FS) (path new : String) (p : List String)
    (hwf : fs.WF) (hpath : path ≠ "") (hp : parsePath path = p) (hnew : new ≠ "") :
    (¬ fs.existsAt p → (∀ d ∈ parentChain p, ¬ fs.isFileAt d) →
      ∃ fs', edit_file fs path "" new =
          (.ok ("Successfully created and wrote to new file " ++ path), fs') ∧
        fs'.contentAt p = some new ∧
        (∀ q, q ≠ p → fs'.contentAt q = fs.contentAt q) ∧
        (∀ x, x ∈ fs'.dirs ↔ x ∈ fs.dirs ∨ x ∈ parentChain p)) ∧
    (∀ C, fs.contentAt p = some C →
      ∃ fs', edit_file fs path "" new = (.ok "OK", fs') ∧
        fs'.contentAt p = some (C ++ new) ∧
        (∀ q, q ≠ p → fs'.contentAt q = fs.contentAt q) ∧
        fs'.dirs = fs.dirs) ∧
    ((edit_file ⟨[], []⟩ "notes/today.txt" "" "hello").1 =
        .ok "Successfully created and wrote to new file notes/today.txt" ∧
      ((edit_file (edit_file ⟨[], []⟩ "notes/today.txt" "" "hello").2
          "notes/today.txt" "" " world").1 = .ok "OK") ∧
      ((edit_file (edit_file (edit_file ⟨[], []⟩ "notes/today.txt" "" "hello").2
          "notes/today.txt" "" " world").2 "notes/today.txt" "hello" "HI").2.contentAt
          ["notes", "today.txt"] = some "HI world")) := by
  have hcond : ¬ (path = "" ∨ ("" : String) = new) := by
    rintro (h | h)
    · exact hpath h
    · exact hnew h.symm
  refine ⟨?_, ?_, rfl, rfl, by decide⟩
  · intro hnot hpar
    obtain ⟨hnone, hpne, hpnd⟩ := not_existsAt_parts fs p hnot
    obtain ⟨fs1, hch, hfiles, hdirs⟩ := mkdirChain_creates (parentChain p) fs hpar
    have hc1 : fs1.contentAt p = fs.contentAt p := contentAt_congr_files fs fs1 hfiles p
    have hnd1 : ¬ fs1.isDirAt p := by
      rintro (h0 | h0)
      · exact hpne h0
      · rcases (hdirs p).mp h0 with h1 | h1
        · exact hpnd h1
        · exact not_mem_parentChain_self p h1
    have hne1 : ¬ fs1.existsAt p := by
      rintro (h0 | h0)
      · unfold FS.isFileAt at h0
        rw [hc1, hnone] at h0
        exact (by simp at h0)
      · exact hnd1 h0
    unfold edit_file
    rw [if_neg hcond]
    dsimp only
    rw [hp, hch]
    dsimp only
    rw [if_pos (And.intro hne1 rfl), writeText_ok fs1 p new hnd1]
    refine ⟨⟨setFile fs1.files p new, fs1.dirs⟩, rfl, contentAt_write_self fs1 p new,
      fun q hq => ?_, fun x => hdirs x⟩
    rw [contentAt_write_other fs1 p q new hq]
    exact contentAt_congr_files fs fs1 hfiles q
  · intro C hC
    have hfile : fs.isFileAt p := by
      unfold FS.isFileAt
      rw [hC]
      rfl
    have hch := mkdirChain_noop fs hwf (parentChain p) (parentChain_mem_dirs fs hwf p C hC)
    have hnd : ¬ fs.isDirAt p := not_isDirAt_of_contentAt fs hwf p C hC
    unfold edit_file
    rw [if_neg hcond]
    dsimp only
    rw [hp, hch]
    dsimp only
    rw [if_neg (fun h => h.1 (Or.inl hfile)), readText_of_contentAt fs p C hC]
    dsimp only
    rw [if_pos rfl, writeText_ok fs p (C ++ new) hnd]
    exact ⟨⟨setFile fs.files p (C ++ new), fs.dirs⟩, rfl, contentAt_write_self fs p _,
      fun q hq => contentAt_write_other fs p q _ hq, rfl⟩

theorem C5_witness :
    (edit_file ⟨[], []⟩ "a/b.txt" "" "hi").1 =
      .ok "Successfully created and wrote to new file a/b.txt" := by
  obtain ⟨fs', h1, -, -, -⟩ :=
    (C5_create_append ⟨[], []⟩ "a/b.txt" "hi" ["a", "b.txt"]
      (by decide) (by decide) (by decide) (by decide)).1 (by decide) (by decide)
  rw [h1]
  rfl

/-- C10: once the precondition check passes, edit_file creates the
missing parent directories before the existence check and the read, so a
call that then fails — here a nonexistent target with nonempty old_str,
which surfaces as the generic unexpected-error message, not a not-found
result — can still leave newly created directories behind. -/
theorem C10_mkdir_side_effect (fs : FS) (path old new : String) (p : List String)
    (hpath : path ≠ "") (hold : old ≠ "") (hne : old ≠ new) (hp : parsePath path = p)
    (hnot : ¬ fs.existsAt p) (hpar : ∀ d ∈ parentChain p, ¬ fs.isFileAt d) :
    ∃ fs', edit_file fs path old new =
        (.ok (unexpectedMsg (.fileNotFound (joinPath p))), fs') ∧
      fs'.files = fs.files ∧
      (∀ x, x ∈ fs'.dirs ↔ x ∈ fs.dirs ∨ x ∈ parentChain p) ∧
      ((∃ d, d ∈ parentChain p ∧ d ∉ fs.dirs) → fs' ≠ fs) := by
  have hcond : ¬ (path = "" ∨ old = new) := by
    rintro (h | h)
    · exact hpath h
    · exact hne h
  obtain ⟨hnone, hpne, hpnd⟩ := not_existsAt_parts fs p hnot
  obtain ⟨fs1, hch, hfiles, hdirs⟩ := mkdirChain_creates (parentChain p) fs hpar
  have hc1 : fs1.contentAt p = fs.contentAt p := contentAt_congr_files fs fs1 hfiles p
  have hnd1 : ¬ fs1.isDirAt p := by
    rintro (h0 | h0)
    · exact hpne h0
    · rcases (hdirs p).mp h0 with h1 | h1
      · exact hpnd h1
      · exact not_mem_parentChain_self p h1
  have hread : fs1.readText p = .error (.fileNotFound (joinPath p)) := by
    unfold FS.readText
    rw [hc1, hnone, if_neg hnd1]
  refine ⟨fs1, ?_, hfiles, fun x => hdirs x, ?_⟩
  · unfold edit_file
    rw [if_neg hcond]
    dsimp only
    rw [hp, hch]
    dsimp only
    rw [if_neg (fun h => hold h.2), hread]
  · rintro ⟨d, hd, hdn⟩ heq
    exact hdn (heq ▸ (hdirs d).mpr (Or.inr hd))

theorem C10_witness :
    (edit_file ⟨[], []⟩ "a/b.txt" "x" "y").1 =
      .ok (unexpectedMsg (.fileNotFound "a/b.txt")) ∧
    (edit_file ⟨[], []⟩ "a/b.txt" "x" "y").2 ≠ ⟨[], []⟩ := by
  obtain ⟨fs', h1, -, -, h4⟩ :=
    C10_mkdir_side_effect ⟨[], []⟩ "a/b.txt" "x" "y" ["a", "b.txt"]
      (by decide) (by decide) (by decide) (by decide) (by decide) (by decide)
  constructor
  · rw [h1]
    rfl
  · rw [h1]
    exact h4 ⟨["a"], by decide, by decide⟩

/-! ## Occurrence counting and first-occurrence replacement -/

theorem countTok_nil (p : Char) (ps : List Char) (f : Nat) :
    countTok p ps f [] = 0 := by
  cases f <;> rfl

theorem countTok_cons (p : Char) (ps : List Char) (f : Nat) (c : Char) (s : List Char) :
    countTok p ps (f + 1) (c :: s) =
      if isPre (p :: ps) (c :: s) then countTok p ps f (s.drop ps.length) + 1
      else countTok p ps f s := rfl

theorem replTok_nil (p : Char) (ps r : List Char) (f : Nat) :
    replTok p ps r f [] = [] := by
  cases f <;> rfl

theorem replTok_cons (p : Char) (ps r : List Char) (f : Nat) (c : Char) (s : List Char) :
    replTok p ps r (f + 1) (c :: s) =
      if isPre (p :: ps) (c :: s) then r ++ s.drop ps.length
      else c :: replTok p ps r f s := rfl

theorem countTok_fuel (p : Char) (ps : List Char) :
    ∀ f₁ f₂ s, s.length ≤ f₁ → s.length ≤ f₂ →
      countTok p ps f₁ s = countTok p ps f₂ s := by
  intro f₁
  induction f₁ with
  | zero =>
    intro f₂ s h1 _
    have : s = [] := List.length_eq_zero.mp (Nat.le_zero.mp h1)
    subst this
    rw [countTok_nil, countTok_nil]
  | succ g ih =>
    intro f₂ s h1 h2
    cases s with
    | nil => rw [countTok_nil, countTok_nil]
    | cons c t =>
      cases f₂ with
      | zero => simp at h2
      | succ m =>
        simp only [List.length_cons] at h1 h2
        rw [countTok_cons, countTok_cons]
        by_cases hp : isPre (p :: ps) (c :: t) = true
        · rw [if_pos hp, if_pos hp]
          have hd1 : (t.drop ps.length).length ≤ g := by
            rw [List.length_drop]; omega
          have hd2 : (t.drop ps.length).length ≤ m := by
            rw [List.length_drop]; omega
          rw [ih _ _ hd1 hd2]
        · rw [if_neg hp, if_neg hp]
          exact ih _ _ (by omega) (by omega)

theorem replTok_fuel (p : Char) (ps r : List Char) :
    ∀ f₁ f₂ s, s.length ≤ f₁ → s.length ≤ f₂ →
      replTok p ps r f₁ s = replTok p ps r f₂ s := by
  intro f₁
  induction f₁ with
  | zero =>
    intro f₂ s h1 _
    have : s = [] := List.length_eq_zero.mp (Nat.le_zero.mp h1)
    subst this
    rw [replTok_nil, replTok_nil]
  | succ g ih =>
    intro f₂ s h1 h2
    cases s with
    | nil => rw [replTok_nil, replTok_nil]
    | cons c t =>
      cases f₂ with
      | zero => simp at h2
      | succ m =>
        simp only [List.length_cons] at h1 h2
        rw [replTok_cons, replTok_cons]
        by_cases hp : isPre (p :: ps) (c :: t) = true
        · rw [if_pos hp, if_pos hp]
        · rw [if_neg hp, if_neg hp, ih m t (by omega) (by omega)]

theorem countL_cons (p : Char) (ps : List Char) (c : Char) (t : List Char) :
    countL p ps (c :: t) =
      if isPre (p :: ps) (c :: t) then countL p ps (t.drop ps.length) + 1
      else countL p ps t := by
  unfold countL
  rw [show (c :: t).length = t.length + 1 from rfl, countTok_cons]
  by_cases hp : isPre (p :: ps) (c :: t) = true
  · rw [if_pos hp, if_pos hp,
      countTok_fuel p ps t.length (t.drop ps.length).length _ (by rw [List.length_drop]; omega) le_rfl]
  · rw [if_neg hp, if_neg hp]

theorem replL_cons (p : Char) (ps r : List Char) (c : Char) (t : List Char) :
    replL p ps r (c :: t) =
      if isPre (p :: ps) (c :: t) then r ++ t.drop ps.length
      else c :: replL p ps r t := by
  unfold replL
  rw [show (c :: t).length = t.length + 1 from rfl, replTok_cons]

/-- Where the leftmost occurrence sits: a positive count splits the
scanned list around the pattern, the replacement substitutes r there, and
the count continues on the remainder. -/
theorem countL_pos_decomp (p : Char) (ps r : List Char) :
    ∀ s : List Char, 0 < countL p ps s →
      ∃ pre suf, s = pre ++ (p :: ps) ++ suf ∧
        replL p ps r s = pre ++ r ++ suf ∧
        countL p ps s = countL p ps suf + 1 := by
  intro s
  induction s with
  | nil =>
    intro h
    rw [countL, countTok_nil] at h
    omega
  | cons c t ih =>
    intro h
    by_cases hp : isPre (p :: ps) (c :: t) = true
    · rcases (isPre_iff (p :: ps) (c :: t)).mp hp with ⟨u, hu⟩
      have hPs : ps ++ u = t := by
        have := hu
        simp only [List.cons_append, List.cons.injEq] at this
        exact this.2
      have hdrop : t.drop ps.length = u := by
        rw [← hPs, List.drop_left]
      refine ⟨[], u, ?_, ?_, ?_⟩
      · simpa using hu.symm
      · rw [replL_cons, if_pos hp, hdrop]
        rfl
      · rw [countL_cons, if_pos hp, hdrop]
    · rw [countL_cons, if_neg hp] at h
      rcases ih h with ⟨pre, suf, h1, h2, h3⟩
      refine ⟨c :: pre, suf, ?_, ?_, ?_⟩
      · rw [h1]
        simp
      · rw [replL_cons, if_neg hp, h2]
        rfl
      · rw [countL_cons, if_neg hp, h3]

theorem pyCount_eq (old C : String) (o : Char) (os : List Char)
    (hod : old.data = o :: os) : pyCount old C = countL o os C.data := by
  unfold pyCount
  rw [hod]

theorem pyReplaceFirst_eq (old rep C : String) (o : Char) (os : List Char)
    (hod : old.data = o :: os) :
    (pyReplaceFirst old rep C).data = replL o os rep.data C.data := by
  unfold pyReplaceFirst
  rw [hod]

theorem data_ne_nil_of_ne_empty (s : String) (h : s ≠ "") : s.data ≠ [] := by
  intro h0
  apply h
  cases s
  simp_all

/-- C1: with the file existing and old_str nonempty, edit_file succeeds
with OK and rewrites exactly the unique occurrence iff the left-to-right
non-overlapping count k is one; for k = 0 and k ≥ 2 the matching error
message is returned and the whole filesystem state is unchanged. -/
theorem C1_edit_uniqueness (fs : FS) (path old new : String) (p : List String)
    (C : String) (k : Nat) (hwf : fs.WF) (hpath : path ≠ "") (hp : parsePath path = p)
    (hC : fs.contentAt p = some C) (hold : old ≠ "") (hne : old ≠ new)
    (hk : pyCount old C = k) :
    (k = 1 → ∃ fs', edit_file fs path old new = (.ok "OK", fs') ∧
      fs'.contentAt p = some (pyReplaceFirst old new C) ∧
      (∀ q, q ≠ p → fs'.contentAt q = fs.contentAt q) ∧
      fs'.dirs = fs.dirs ∧
      pyReplaceFirst old new C ≠ C ∧
      ∃ pre suf, C.data = pre ++ old.data ++ suf ∧
        (pyReplaceFirst old new C).data = pre ++ new.data ++ suf) ∧
    (k = 0 → edit_file fs path old new =
      (.ok "Error: old_str not found in file.", fs)) ∧
    (2 ≤ k → edit_file fs path old new =
      (.ok ("Error: old_str found " ++ toString k ++
        " times, must be unique for safety."), fs)) := by
  have hcond : ¬ (path = "" ∨ old = new) := by
    rintro (h | h)
    · exact hpath h
    · exact hne h
  have hfile : fs.isFileAt p := by
    unfold FS.isFileAt
    rw [hC]
    rfl
  have hch := mkdirChain_noop fs hwf (parentChain p) (parentChain_mem_dirs fs hwf p C hC)
  have hnd : ¬ fs.isDirAt p := not_isDirAt_of_contentAt fs hwf p C hC
  have hmain : edit_file fs path old new =
      (if pyCount old C = 0 then (.ok "Error: old_str not found in file.", fs)
       else if 1 < pyCount old C then
         (.ok ("Error: old_str found " ++ toString (pyCount old C) ++
           " times, must be unique for safety."), fs)
       else
         match fs.writeText p (pyReplaceFirst old new C) with
         | .ok fs2 => (.ok "OK", fs2)
         | .error e => (.ok (unexpectedMsg e), fs)) := by
    unfold edit_file
    rw [if_neg hcond]
    dsimp only
    rw [hp, hch]
    dsimp only
    rw [if_neg (fun h => hold h.2), readText_of_contentAt fs p C hC]
    dsimp only
    rw [if_neg hold]
  refine ⟨?_, ?_, ?_⟩
  · intro hk1
    subst hk1
    cases hod : old.data with
    | nil => exact absurd (by cases old; simp_all) hold
    | cons o os =>
      have hcount : countL o os C.data = 1 := by
        rw [← pyCount_eq old C o os hod, hk]
      rcases countL_pos_decomp o os new.data C.data (by omega) with ⟨pre, suf, h1, h2, -⟩
      have hrep : (pyReplaceFirst old new C).data = pre ++ new.data ++ suf := by
        rw [pyReplaceFirst_eq old new C o os hod, h2]
      have hCd : C.data = pre ++ old.data ++ suf := by
        rw [h1, hod]
      refine ⟨⟨setFile fs.files p (pyReplaceFirst old new C), fs.dirs⟩, ?_, ?_, ?_, rfl, ?_,
        pre, suf, h1, hrep⟩
      · rw [hmain, if_neg (by omega : ¬ pyCount old C = 0),
          if_neg (by omega : ¬ 1 < pyCount old C),
          writeText_ok fs p (pyReplaceFirst old new C) hnd]
      · exact contentAt_write_self fs p _
      · exact fun q hq => contentAt_write_other fs p q _ hq
      · intro heq
        have hd : (pyReplaceFirst old new C).data = C.data := congrArg String.data heq
        rw [hrep, hCd] at hd
        have h5 : new.data = old.data :=
          List.append_cancel_left (List.append_cancel_right hd)
        apply hne
        cases old
        cases new
        simp_all
  · intro hk0
    rw [hmain, hk, if_pos hk0]
  · intro hk2
    rw [hmain, hk, if_neg (by omega : ¬ k = 0), if_pos (by omega : 1 < k)]

theorem C1_witness :
    (edit_file ⟨[(["f.txt"], "hello world")], []⟩ "f.txt" "hello" "HI").1 = .ok "OK" ∧
    (edit_file ⟨[(["f.txt"], "hello world")], []⟩ "f.txt" "hello" "HI").2.contentAt
      ["f.txt"] = some "HI world" := by
  obtain ⟨fs', h1, h2, -, -, -, -⟩ :=
    (C1_edit_uniqueness ⟨[(["f.txt"], "hello world")], []⟩ "f.txt" "hello" "HI"
      ["f.txt"] "hello world" 1 (by decide) (by decide) (by decide) (by decide)
      (by decide) (by decide) (by decide)).1 rfl
  constructor
  · rw [h1]
  · rw [h1]
    rw [h2]
    rfl

/-! ## Listing order and formatting -/

theorem char_toNat_lt_iff (a b : Char) : a.toNat < b.toNat ↔ a < b := Iff.rfl

theorem lt_cons_cons_iff {α : Type} [LT α] (y x : α) (ys xs : List α) :
    List.lt (y :: ys) (x :: xs) ↔ y < x ∨ (¬ y < x ∧ ¬ x < y ∧ List.lt ys xs) := by
  constructor
  · intro h
    cases h with
    | head _ _ h => exact Or.inl h
    | tail h1 h2 h3 => exact Or.inr ⟨h1, h2, h3⟩
  · rintro (h | ⟨h1, h2, h3⟩)
    · exact List.lt.head _ _ h
    · exact List.lt.tail h1 h2 h3

theorem charLL_iff : ∀ a b : List Char, charLL a b = true ↔ ¬ List.lt b a
  | [], b =>
    ⟨fun _ h => (nomatch h), fun _ => rfl⟩
  | x :: xs, [] =>
    ⟨fun h => (nomatch h), fun h => (h (List.lt.nil x xs)).elim⟩
  | x :: xs, y :: ys => by
    rw [show charLL (x :: xs) (y :: ys) =
      (if x.toNat < y.toNat then true
       else if y.toNat < x.toNat then false
       else charLL xs ys) from rfl, lt_cons_cons_iff]
    rcases Nat.lt_trichotomy x.toNat y.toNat with hlt | heq | hgt
    · rw [if_pos hlt]
      simp only [true_iff]
      rintro (h | ⟨-, h2, -⟩)
      · have := (char_toNat_lt_iff y x).mpr h
        omega
      · exact h2 ((char_toNat_lt_iff x y).mp hlt)
    · have h1 : ¬ x.toNat < y.toNat := by omega
      have h2 : ¬ y.toNat < x.toNat := by omega
      have h1' : ¬ x < y := fun h => h1 ((char_toNat_lt_iff x y).mpr h)
      have h2' : ¬ y < x := fun h => h2 ((char_toNat_lt_iff y x).mpr h)
      rw [if_neg h1, if_neg h2, charLL_iff xs ys]
      constructor
      · rintro h (hc | ⟨-, -, h3⟩)
        · exact h2' hc
        · exact h h3
      · intro h h3
        exact h (Or.inr ⟨h2', h1', h3⟩)
    · rw [if_neg (by omega : ¬ x.toNat < y.toNat), if_pos hgt]
      refine ⟨fun h => (nomatch h), fun h => ?_⟩
      exact (h (Or.inl ((char_toNat_lt_iff y x).mp hgt))).elim

theorem strLE_iff_le (s t : String) : strLE s t = true ↔ s ≤ t := by
  rw [show strLE s t = charLL s.data t.data from rfl, charLL_iff s.data t.data]
  constructor
  · intro hn hlt
    exact hn ((List.lt_iff_lex_lt t.data s.data).mpr (String.lt_iff_toList_lt.mp hlt))
  · intro hle hlt
    exact hle (String.lt_iff_toList_lt.mpr ((List.lt_iff_lex_lt t.data s.data).mp hlt))

/-- C8: the listing is produced from the rglob results sorted by the
underlying path string — the same multiset of entries, in full sorted
order of the path strings, directories and files interleaved — and only
afterwards filtered and converted to relative form. -/
theorem C8_sort_order (fs : FS) (path : String) :
    (sortedEntries fs (parsePath path)).Perm (rglob fs (parsePath path)) ∧
    List.Sorted (fun e₁ e₂ : List String × Bool => joinPath e₁.1 ≤ joinPath e₂.1)
      (sortedEntries fs (parsePath path)) ∧
    listFilesCore fs (parsePath path) =
      ((sortedEntries fs (parsePath path)).filter fun e => !anyHidden e.1).map
        (fmtEntry (parsePath path)) := by
  refine ⟨List.perm_insertionSort _ _, ?_, rfl⟩
  haveI : IsTotal (List String × Bool)
      (fun e₁ e₂ => strLE (joinPath e₁.1) (joinPath e₂.1) = true) := by
    constructor
    intro a b
    rcases le_total (joinPath a.1) (joinPath b.1) with h | h
    · exact Or.inl ((strLE_iff_le _ _).mpr h)
    · exact Or.inr ((strLE_iff_le _ _).mpr h)
  haveI : IsTrans (List String × Bool)
      (fun e₁ e₂ => strLE (joinPath e₁.1) (joinPath e₂.1) = true) := by
    constructor
    intro a b c hab hbc
    exact (strLE_iff_le _ _).mpr
      (le_trans ((strLE_iff_le _ _).mp hab) ((strLE_iff_le _ _).mp hbc))
  have h := List.sorted_insertionSort
    (fun e₁ e₂ : List String × Bool => strLE (joinPath e₁.1) (joinPath e₂.1) = true)
    (rglob fs (parsePath path))
  exact h.imp fun hab => (strLE_iff_le _ _).mp hab

theorem mem_of_getLast?_eq {α : Type} (l : List α) (a : α) (h : l.getLast? = some a) :
    a ∈ l := by
  rcases List.getLast?_eq_some_iff.mp h with ⟨ys, rfl⟩
  exact List.mem_append_right _ (List.mem_singleton_self a)

theorem getLast?_append_right {α : Type} (l l' : List α) (h : l' ≠ []) :
    (l ++ l').getLast? = l'.getLast? := by
  rw [List.getLast?_append]
  cases hl : l'.getLast? with
  | none => exact absurd (List.getLast?_eq_none_iff.mp hl) h
  | some a => rfl

theorem joinPath_data_cons_cons (c d : String) (rest : List String) :
    (joinPath (c :: d :: rest)).data = c.data ++ '/' :: (joinPath (d :: rest)).data := by
  rw [show joinPath (c :: d :: rest) = c ++ "/" ++ joinPath (d :: rest) from rfl,
    String.data_append, String.data_append]
  simp

/-- The path string of a valid nonempty component list is nonempty and
does not end with the separator. -/
theorem joinPath_ne_nil_data :
    ∀ p : List String, p ≠ [] → (∀ c ∈ p, validComp c) →
      (joinPath p).data ≠ [] ∧ (joinPath p).data.getLast? ≠ some '/'
  | [], h, _ => absurd rfl h
  | [c], _, hv => by
    have hc := hv c (List.mem_singleton_self c)
    have h1 : (joinPath [c]).data = c.data := rfl
    constructor
    · rw [h1]
      exact data_ne_nil_of_ne_empty c hc.1
    · rw [h1]
      intro h
      exact hc.2 (mem_of_getLast?_eq c.data '/' h)
  | c :: d :: rest, _, hv => by
    have ih := joinPath_ne_nil_data (d :: rest) (by simp)
      (fun x hx => hv x (List.mem_cons_of_mem c hx))
    rw [joinPath_data_cons_cons]
    constructor
    · simp
    · rw [show c.data ++ '/' :: (joinPath (d :: rest)).data =
        c.data ++ ['/'] ++ (joinPath (d :: rest)).data by simp,
        getLast?_append_right _ _ ih.1]
      exact ih.2

/-- Entries of rglob sit strictly below the base with valid components. -/
theorem rglob_parts (fs : FS) (b : List String) (hwf : fs.WF)
    (e : List String × Bool) (he : e ∈ rglob fs b) :
    ∃ t, t ≠ [] ∧ e.1 = b ++ t ∧ (∀ c ∈ t, validComp c) ∧
      e.1.drop b.length = t := by
  have hmem : e ∈ fs.entriesOf := List.mem_of_mem_filter he
  have hstrict := (List.mem_filter.mp he).2
  rw [Bool.and_eq_true, Bool.not_eq_true', decide_eq_false_iff_not] at hstrict
  obtain ⟨hpre, hne⟩ := hstrict
  rcases (isPre_iff _ _).mp hpre with ⟨t, ht⟩
  have htne : t ≠ [] := by
    rintro rfl
    exact hne (by simpa using ht.symm)
  have hval : validPath e.1 := by
    unfold FS.entriesOf at hmem
    rcases List.mem_append.mp hmem with hf | hd
    · rcases List.mem_map.mp hf with ⟨x, hx, hxe⟩
      have := hwf.1 x hx
      rwa [show x.1 = e.1 from congrArg Prod.fst hxe] at this
    · rcases List.mem_map.mp hd with ⟨x, hx, hxe⟩
      have := hwf.2.1 x hx
      rwa [show x = e.1 from congrArg Prod.fst hxe] at this
  refine ⟨t, htne, ht.symm, ?_, ?_⟩
  · intro c hc
    exact hval.2 c (by rw [← ht]; exact List.mem_append_right _ hc)
  · rw [← ht, List.drop_left]

/-- C9: every directory entry in the produced listing ends with the
separator and no file entry does. -/
theorem C9_dir_suffix (fs : FS) (path : String) (hwf : fs.WF) :
    listFilesCore fs (parsePath path) =
      (listedEntries fs (parsePath path)).map (fmtEntry (parsePath path)) ∧
    ∀ e ∈ listedEntries fs (parsePath path),
      ((fmtEntry (parsePath path) e).data.getLast? = some '/' ↔ e.2 = true) := by
  refine ⟨rfl, fun e he => ?_⟩
  have he1 : e ∈ sortedEntries fs (parsePath path) := List.mem_of_mem_filter he
  have he2 : e ∈ rglob fs (parsePath path) :=
    (List.Perm.mem_iff (List.perm_insertionSort _ _)).mp he1
  rcases rglob_parts fs (parsePath path) hwf e he2 with ⟨t, htne, -, htv, hdrop⟩
  have hj := joinPath_ne_nil_data t htne htv
  unfold fmtEntry
  rw [hdrop]
  cases hflag : e.2 with
  | true =>
    rw [if_pos rfl, String.data_append,
      getLast?_append_right _ _ (by simp : ("/" : String).data ≠ [])]
    simp
  | false =>
    rw [if_neg (by simp), String.append_empty]
    simp only [Bool.false_eq_true, iff_false]
    exact hj.2

theorem C9_witness :
    (fmtEntry (parsePath "p") (["p", "vis"], true)).data.getLast? = some '/' :=
  ((C9_dir_suffix ⟨[(["p", "b.txt"], "x")], [["p"], ["p", "vis"]]⟩ "p"
    (by decide)).2 (["p", "vis"], true) (by decide)).mpr rfl

/-! ## Hidden-entry exclusion -/

theorem slashfree_split : ∀ (a b x y : List Char), '/' ∉ a → '/' ∉ b →
    a ++ '/' :: x = b ++ '/' :: y → a = b ∧ x = y
  | [], [], x, y, _, _, h => by
    simp only [List.nil_append, List.cons.injEq] at h
    exact ⟨rfl, h.2⟩
  | [], d :: bs, x, y, _, hb, h => by
    simp only [List.nil_append, List.cons_append, List.cons.injEq] at h
    exact absurd (by rw [h.1]; exact List.mem_cons_self d bs) hb
  | c :: as, [], x, y, ha, _, h => by
    simp only [List.cons_append, List.nil_append, List.cons.injEq] at h
    exact absurd (by rw [← h.1]; exact List.mem_cons_self c as) ha
  | c :: as, d :: bs, x, y, ha, hb, h => by
    simp only [List.cons_append, List.cons.injEq] at h
    obtain ⟨hc, ht⟩ := h
    have ih := slashfree_split as bs x y
      (fun hm => ha (List.mem_cons_of_mem c hm))
      (fun hm => hb (List.mem_cons_of_mem d hm)) ht
    rw [hc, ih.1]
    exact ⟨rfl, ih.2⟩

theorem join2_has_slash (c d : String) (rest : List String) :
    '/' ∈ (joinPath (c :: d :: rest)).data := by
  rw [joinPath_data_cons_cons]
  exact List.mem_append_right _ (List.mem_cons_self '/' _)

/-- Two valid component lists with the same path string are equal. -/
theorem joinPath_inj : ∀ (p q : List String), (∀ c ∈ p, validComp c) →
    (∀ c ∈ q, validComp c) → joinPath p = joinPath q → p = q
  | [], [], _, _, _ => rfl
  | [], [c], _, hq, h => by
    exfalso
    apply (hq c (List.mem_singleton_self c)).1
    apply String.ext
    have := congrArg String.data h
    simpa using this.symm
  | [], c :: d :: rest, _, _, h => by
    exfalso
    have hs := join2_has_slash c d rest
    rw [← h] at hs
    exact List.not_mem_nil _ hs
  | [c], [], hp, _, h => by
    exfalso
    apply (hp c (List.mem_singleton_self c)).1
    apply String.ext
    simpa using congrArg String.data h
  | [c], [d], _, _, h => by
    rw [show joinPath [c] = c from rfl, show joinPath [d] = d from rfl] at h
    rw [h]
  | [c], d :: e :: rest, hp, _, h => by
    exfalso
    have hs := join2_has_slash d e rest
    rw [← h] at hs
    exact (hp c (List.mem_singleton_self c)).2 hs
  | c :: d :: rest, [], _, _, h => by
    exfalso
    have hs := join2_has_slash c d rest
    rw [h] at hs
    exact List.not_mem_nil _ hs
  | c :: d :: rest, [e], hp, hq, h => by
    exfalso
    have hs := join2_has_slash c d rest
    rw [h] at hs
    exact (hq e (List.mem_singleton_self e)).2 hs
  | c :: c₂ :: cr, d :: d₂ :: dr, hp, hq, h => by
    have hd := congrArg String.data h
    rw [joinPath_data_cons_cons, joinPath_data_cons_cons] at hd
    have hsplit := slashfree_split c.data d.data _ _
      (hp c (List.mem_cons_self ..)).2 (hq d (List.mem_cons_self ..)).2 hd
    have hcd : c = d := String.ext hsplit.1
    have htl := joinPath_inj (c₂ :: cr) (d₂ :: dr)
      (fun x hx => hp x (List.mem_cons_of_mem c hx))
      (fun x hx => hq x (List.mem_cons_of_mem d hx)) (String.ext hsplit.2)
    rw [hcd, htl]

/-- Distinct rglob entries have distinct formatted output strings. -/
theorem fmtEntry_inj (fs : FS) (b : List String) (hwf : fs.WF)
    (e e' : List String × Bool) (he : e ∈ rglob fs b) (he' : e' ∈ rglob fs b)
    (h : fmtEntry b e = fmtEntry b e') : e.1 = e'.1 := by
  rcases rglob_parts fs b hwf e he with ⟨t, htne, hteq, htv, hdrop⟩
  rcases rglob_parts fs b hwf e' he' with ⟨t', htne', hteq', htv', hdrop'⟩
  unfold fmtEntry at h
  rw [hdrop, hdrop'] at h
  have hj := joinPath_ne_nil_data t htne htv
  have hj' := joinPath_ne_nil_data t' htne' htv'
  cases hf : e.2 with
  | false =>
    cases hf' : e'.2 with
    | false =>
      rw [hf, hf', show (if (false = true) then ("/" : String) else "") = "" from rfl,
        String.append_empty, String.append_empty] at h
      rw [hteq, hteq', joinPath_inj t t' htv htv' h]
    | true =>
      exfalso
      rw [hf, hf', show (if (false = true) then ("/" : String) else "") = "" from rfl,
        show (if (true = true) then ("/" : String) else "") = "/" from rfl,
        String.append_empty] at h
      apply hj.2
      rw [h, String.data_append,
        getLast?_append_right _ _ (by simp : ("/" : String).data ≠ [])]
      rfl
  | true =>
    cases hf' : e'.2 with
    | false =>
      exfalso
      rw [hf, hf', show (if (false = true) then ("/" : String) else "") = "" from rfl,
        show (if (true = true) then ("/" : String) else "") = "/" from rfl,
        String.append_empty] at h
      apply hj'.2
      rw [← h, String.data_append,
        getLast?_append_right _ _ (by simp : ("/" : String).data ≠ [])]
      rfl
    | true =>
      rw [hf, hf',
        show (if (true = true) then ("/" : String) else "") = "/" from rfl] at h
      have hd := congrArg String.data h
      rw [String.data_append, String.data_append] at hd
      have hJ : (joinPath t).data = (joinPath t').data := List.append_cancel_right hd
      rw [hteq, hteq', joinPath_inj t t' htv htv' (String.ext hJ)]

/-- C4: an entry with a hidden component (a component starting with the
dot marker) never appears in the listing, and every entry beneath it has
the hidden component as well, so nothing beneath it appears either. -/
theorem C4_hidden_exclusion (fs : FS) (path : String) (hwf : fs.WF)
    (e : List String × Bool) (he : e ∈ rglob fs (parsePath path))
    (hh : anyHidden e.1 = true) :
    fmtEntry (parsePath path) e ∉ listFilesCore fs (parsePath path) ∧
    (∀ q, e.1 <+: q → anyHidden q = true) := by
  constructor
  · intro hmem
    unfold listFilesCore at hmem
    rcases List.mem_map.mp hmem with ⟨e', he', hfmt⟩
    have hnh : (!anyHidden e'.1) = true := (List.mem_filter.mp he').2
    have he'1 : e' ∈ sortedEntries fs (parsePath path) := List.mem_of_mem_filter he'
    have he'2 : e' ∈ rglob fs (parsePath path) :=
      (List.Perm.mem_iff (List.perm_insertionSort _ _)).mp he'1
    have heq := fmtEntry_inj fs (parsePath path) hwf e' e he'2 he hfmt
    rw [Bool.not_eq_true'] at hnh
    rw [heq, hh] at hnh
    simp at hnh
  · rintro q ⟨u, hu⟩
    rw [← hu]
    unfold anyHidden at hh ⊢
    rw [List.any_append, hh, Bool.true_or]

theorem C4_witness :
    fmtEntry (parsePath "p") (["p", ".hid"], true) ∉
      listFilesCore ⟨[(["p", ".hid", "s.txt"], "y"), (["p", "b.txt"], "x")],
        [["p"], ["p", ".hid"]]⟩ (parsePath "p") :=
  (C4_hidden_exclusion ⟨[(["p", ".hid", "s.txt"], "y"), (["p", "b.txt"], "x")],
    [["p"], ["p", ".hid"]]⟩ "p" (by decide) (["p", ".hid"], true)
    (by decide) (by decide)).1

end Codegen
